import Mathlib

/-!
Verification development for portage-jobsmon.py, a curses dashboard that
tails parallel portage build logs.  The file shallowly embeds the parts of
the program the claims concern:

* the escape interpreter and backlog handling of Screen.append
  (lines 177-291 of the source);
* the row-layout computation of Screen.redraw (lines 115-134);
* the window-lifecycle state machine: Screen.addwin/delwin/checkact,
  check_lock, and the inotify close-write handler (lines 17-34, 54-72,
  293-318, 466-481).

Machine integers are modelled as Nat/Int (Python integers are unbounded);
Python floor/Euclidean division and modulo on the nonnegative operands that
arise here are Int.ediv/Int.emod; Python string slicing s[-n:] is modelled
including its n = 0 quirk (the slice is the whole string).
-/

set_option linter.unusedVariables false

/-! ### Curses constants

The five display attributes used by the program are distinct bits of the
curses attribute word; their concrete platform values are irrelevant, so they
are modelled as the low five bits.  The curses COLOR_* constants really are
0..7.  -/

def A_BOLD : Nat := 1

def A_DIM : Nat := 2

def A_UNDERLINE : Nat := 4

def A_BLINK : Nat := 8

def A_REVERSE : Nat := 16

/-- Mask of the five modelled attribute bits. -/
def ATTR_MASK : Nat := 31

/-- Python's `mode &= ~x` (clear the bits of `x`).  The program's mode word
only ever holds bits from the five-bit attribute mask (it starts at 0 and is
only or-ed with attrmapping entries), so clearing against the five-bit mask
is exactly the Python two's-complement `&~`. -/
def clearBits (mode x : Nat) : Nat := Nat.land mode (Nat.xor ATTR_MASK x)

/-- attrmapping table (source line 210): SGR code → curses attribute bit.
Indices 0, 3 and 6 are None in the source and are never read. -/
def attrmapping : Nat → Nat
  | 1 => A_BOLD
  | 2 => A_DIM
  | 4 => A_UNDERLINE
  | 5 => A_BLINK
  | 7 => A_REVERSE
  | _ => 0

/-- colrmapping table (source line 212): ANSI colour index → curses COLOR_*
constant (curses colours black..white are the values 0..7). -/
def colrmapping : Nat → Int
  | 0 => 0
  | 1 => 1
  | 2 => 2
  | 3 => 3
  | 4 => 4
  | 5 => 5
  | 6 => 6
  | 7 => 7
  | _ => 0

/-- The information content of the rendering attribute installed by
`w.win.attrset(mode | self.getcolor(fgcol, bgcol))` (source line 248): the
attribute bit mask together with the foreground/background colours (-1 is the
terminal default).  getcolor maps distinct (fg, bg) pairs to distinct curses
colour-pair slots, so the triple is the faithful observable content of the
attrset argument. -/
structure Attr where
  mode : Nat
  fg : Int
  bg : Int
deriving DecidableEq, Repr

/-- The default attribute: no mode bits, default colours. -/
def defaultAttr : Attr := ⟨0, -1, -1⟩

/-- One SGR parameter applied to the local (mode, fgcol, bgcol) triple:
the elif chain of source lines 224-247, in non-debug mode (unsupported
codes are ignored; with --debug the source instead raises). -/
def sgrStep (st : Nat × Int × Int) (a : Nat) : Nat × Int × Int :=
  let mode := st.1
  let fgcol := st.2.1
  let bgcol := st.2.2
  if a = 0 then (0, -1, -1)
  else if a = 1 ∨ a = 2 ∨ a = 4 ∨ a = 5 ∨ a = 7 then
    (Nat.lor mode (attrmapping a), fgcol, bgcol)
  else if a = 21 ∨ a = 22 then
    (clearBits mode (Nat.lor A_BOLD A_DIM), fgcol, bgcol)
  else if a = 24 ∨ a = 25 ∨ a = 27 then
    (clearBits mode (attrmapping (a % 20)), fgcol, bgcol)
  else if 30 ≤ a ∧ a ≤ 37 then (mode, colrmapping (a % 30), bgcol)
  else if a = 38 then (Nat.lor mode A_UNDERLINE, -1, bgcol)
  else if a = 39 then (clearBits mode A_UNDERLINE, -1, bgcol)
  else if 40 ≤ a ∧ a ≤ 47 then (mode, fgcol, colrmapping (a % 40))
  else if a = 49 then (mode, fgcol, -1)
  else (mode, fgcol, bgcol)

/-! ### Tokenising a chunk

The source splits each chunk with the regular expression
`(ESC LBRACKET (digits* ;)* digits* [a-zA-Z@BACKTICK] | BEL)` (line 45) and
walks the pieces in order: pieces between matches are literal text, a BEL
match rings the bell, any other match is a CSI sequence.  The scanner below
produces the same interleaving directly: a CSI match is exactly an ESC,
a left bracket, a run of digits/semicolons and one final letter; an ESC that
is not followed by such a match stays literal text.  -/

/-- Characters allowed in the parameter part of a CSI sequence. -/
def isParamChar (c : Char) : Bool := c.isDigit || c = ';'

/-- The final characters the source's pattern accepts: a-z, A-Z, @ and
backquote (the character class on source line 45). -/
def isEscFinal (c : Char) : Bool :=
  ('a' ≤ c && c ≤ 'z') || ('A' ≤ c && c ≤ 'Z') || c = '@' || c = '\x60'

/-- One piece of a split chunk: a literal run, a CSI sequence
(parameter characters, final letter), or the bell character. -/
inductive Tok where
  | lit : List Char → Tok
  | esc : List Char → Char → Tok
  | bell : Tok
deriving DecidableEq, Repr

/-- Scanner state: not inside a potential CSI sequence, just saw ESC, or saw
ESC-bracket followed by the recorded parameter characters. -/
inductive Pending where
  | noEsc : Pending
  | sawEsc : Pending
  | inEsc : List Char → Pending
deriving DecidableEq, Repr

/-- The characters a pending partial CSI sequence stands for, used when the
sequence fails to complete and its characters revert to literal text. -/
def flushPend : Pending → List Char
  | .noEsc => []
  | .sawEsc => '\x1b' :: []
  | .inEsc ps => '\x1b' :: '[' :: ps

/-- Emit an accumulated literal run if it is nonempty. -/
def pushLit (acc : List Char) (ts : List Tok) : List Tok :=
  if acc = [] then ts else Tok.lit acc :: ts

/-- Split a chunk into maximal literal runs, CSI sequences and bells, exactly
as the source's regex split does (see the section comment). -/
def scanTok : List Char → List Char → Pending → List Tok
  | [], acc, p => pushLit (acc ++ flushPend p) []
  | c :: cs, acc, .noEsc =>
    if c = '\x07' then pushLit acc (Tok.bell :: scanTok cs [] .noEsc)
    else if c = '\x1b' then scanTok cs acc .sawEsc
    else scanTok cs (acc ++ [c]) .noEsc
  | c :: cs, acc, .sawEsc =>
    if c = '[' then scanTok cs acc (.inEsc [])
    else if c = '\x07' then
      pushLit (acc ++ ('\x1b' :: [])) (Tok.bell :: scanTok cs [] .noEsc)
    else if c = '\x1b' then scanTok cs (acc ++ ('\x1b' :: [])) .sawEsc
    else scanTok cs (acc ++ ('\x1b' :: c :: [])) .noEsc
  | c :: cs, acc, .inEsc ps =>
    if isParamChar c then scanTok cs acc (.inEsc (ps ++ [c]))
    else if isEscFinal c then pushLit acc (Tok.esc ps c :: scanTok cs [] .noEsc)
    else if c = '\x07' then
      pushLit (acc ++ flushPend (.inEsc ps)) (Tok.bell :: scanTok cs [] .noEsc)
    else if c = '\x1b' then scanTok cs (acc ++ flushPend (.inEsc ps)) .sawEsc
    else scanTok cs (acc ++ flushPend (.inEsc ps) ++ [c]) .noEsc

/-- Python `int(s, 10)` on the digit strings produced by the CSI pattern. -/
def parseNat (s : List Char) : Nat :=
  s.foldl (fun n c => 10 * n + (c.toNat - 48)) 0

/-- Python `s.split(';')`: semicolon-separated fields, empty fields kept,
the empty string splitting to one empty field. -/
def splitSemi : List Char → List (List Char)
  | [] => [[]]
  | c :: cs =>
    match splitSemi cs with
    | a :: t => if c = ';' then [] :: a :: t else (c :: a) :: t
    | [] => [[]]

/-! ### The per-window curses state -/

/-- Cursor and attribute state of one job window's curses subwindow
(`w.win`): its size from getmaxyx, the cursor position, and the attribute
installed by the last attrset.  Cell contents are modelled by the emitted
draw operations rather than a character matrix, because the program repaints
from the backlog after every layout change. -/
structure WinState where
  rows : Nat
  cols : Nat
  cury : Nat
  curx : Nat
  attr : Attr
deriving DecidableEq, Repr

/-- Cursor advance of one character written by curses addstr with
scrollok(1): printable characters advance the column and wrap at the right
edge; a newline moves to column 0 of the next row; at the bottom the window
scrolls and the cursor stays on the last row. -/
def addch (ws : WinState) (c : Char) : WinState :=
  if c = '\n' then { ws with cury := min (ws.cury + 1) (ws.rows - 1), curx := 0 }
  else if ws.curx + 1 ≥ ws.cols then
    { ws with cury := min (ws.cury + 1) (ws.rows - 1), curx := 0 }
  else { ws with curx := ws.curx + 1 }

/-- Cursor effect of `w.win.addstr(s)`. -/
def addstrWin (ws : WinState) (s : List Char) : WinState := s.foldl addch ws

/-- The cursor family of source lines 249-287.  This branch is reached only
for final letters with `ord('A') <= ord(f) < ord('H')`, i.e. A..G: the
`range(ord('A'), ord('H'))` guard on line 249 excludes H itself, so the
H-handling code on lines 268-273 (and the `func != 'H'` test on line 250)
is unreachable and is not part of the behaviour modelled here.  `args[0]`
defaults to 1 when empty; E and F additionally assign the literal column 1
(lines 274-275); the resulting position is clamped to the window. -/
def cursorMove (ws : WinState) (f : Char) (args : List (List Char)) : WinState :=
  let y : Int := ws.cury
  let x : Int := ws.curx
  let arg : Int :=
    match args.head? with
    | some [] => 1
    | some s => parseNat s
    | none => 1
  let yx : Int × Int :=
    if f = 'A' ∨ f = 'F' then (y - arg, x)
    else if f = 'B' ∨ f = 'E' then (y + arg, x)
    else if f = 'C' then (y, x + arg)
    else if f = 'D' then (y, x - arg)
    else if f = 'G' then (y, arg - 1)
    else (y, x)
  let yx : Int × Int := if f = 'E' ∨ f = 'F' then (yx.1, 1) else yx
  let y2 : Int :=
    if yx.1 < 0 then 0
    else if yx.1 ≥ (ws.rows : Int) then (ws.rows : Int) - 1
    else yx.1
  let x2 : Int :=
    if yx.2 < 0 then 0
    else if yx.2 ≥ (ws.cols : Int) then (ws.cols : Int) - 1
    else yx.2
  { ws with cury := y2.toNat, curx := x2.toNat }

/-- Bell configuration: the --visual-bell and --visual-and-audible-bell
options (option parsing sets vbell whenever vabell is set, but the append
code only reads the two flags). -/
structure Opts where
  vbell : Bool
  vabell : Bool
deriving DecidableEq, Repr

def defOpts : Opts := ⟨false, false⟩

/-- A draw action emitted while interpreting a chunk: a literal run written
under a rendering attribute, an audible beep, or a screen flash. -/
inductive DrawOp where
  | text : List Char → Attr → DrawOp
  | beep : DrawOp
  | flash : DrawOp
deriving DecidableEq, Repr

/-- State threaded through one chunk's token walk: the curses window state,
the local (mode, fgcol, bgcol) triple (re-initialised to 0, -1, -1 at the
start of every append, source lines 196-198), and the draw operations emitted so
far, in order. -/
structure PState where
  win : WinState
  mode : Nat
  fgcol : Int
  bgcol : Int
  ops : List DrawOp
deriving Repr

/-- Process one token of a chunk (the body of the loop on source
lines 200-289, non-debug mode): literal runs are written under the window's
current attribute, BEL beeps and/or flashes according to the options, an SGR
sequence folds its parameters into the local triple and installs the result
with attrset, a cursor sequence with final letter A..G moves the cursor, and
anything else is ignored. -/
def procTok (o : Opts) (st : PState) (t : Tok) : PState :=
  match t with
  | .lit s =>
    { st with ops := st.ops ++ [DrawOp.text s st.win.attr], win := addstrWin st.win s }
  | .bell =>
    let beeps := if o.vabell ∨ ¬ o.vbell then [DrawOp.beep] else []
    let flashes := if o.vbell then [DrawOp.flash] else []
    { st with ops := st.ops ++ beeps ++ flashes }
  | .esc ps f =>
    let args := splitSemi ps
    if f = 'm' then
      let r := args.foldl (fun acc a => sgrStep acc (if a = [] then 0 else parseNat a))
        (st.mode, st.fgcol, st.bgcol)
      { st with mode := r.1, fgcol := r.2.1, bgcol := r.2.2,
                win := { st.win with attr := ⟨r.1, r.2.1, r.2.2⟩ } }
    else if 'A'.toNat ≤ f.toNat ∧ f.toNat < 'H'.toNat then
      { st with win := cursorMove st.win f args }
    else st

/-! ### Screen.append -/

/-- Python `s[-n:]` for an arbitrary integer n, as used on source line 185
with n = backloglen: for n > 0 the last n characters (or all of them when the
string is shorter); for n = 0 the WHOLE string, because -0 is 0 and `s[0:]`
is s; for n < 0 the string with its first -n characters dropped. -/
def pyTailSlice (n : Int) (s : List Char) : List Char :=
  if 0 < n then s.drop (s.length - n.toNat) else s.drop (-n).toNat

/-- The backlog capacity computed at each redraw (source line 85):
(height - 2) * width. -/
def backlogCapacity (height width : Int) : Int := (height - 2) * width

/-- Rendering state of one job window: its bounded backlog, the deferred
trailing-newline flag, and its curses subwindow when the window currently has
a region on screen (None when hidden).  The lifecycle fields (activity and
lock bookkeeping) live in the lifecycle model below. -/
structure RWin where
  backlog : List Char
  newline : Bool
  win : Option WinState
deriving DecidableEq, Repr

/-- One Screen.append call (source lines 177-291) for a single window:
update the backlog through the bounded slice (unless omitbacklog, the flag
redraw uses when replaying), and, when the window is visible, draw the
deferred newline, defer a trailing newline of this chunk, and run the
escape-interpreter pass over the remaining text.  Returns the updated window
and the draw operations emitted, in order.  The activity-timestamp and
inactive-revival side effects of lines 178-181 belong to the lifecycle
model. -/
def append (backloglen : Int) (o : Opts) (w : RWin) (text : List Char)
    (omitbacklog : Bool) : RWin × List DrawOp :=
  let w :=
    if omitbacklog then w
    else { w with backlog := pyTailSlice backloglen (w.backlog ++ text) }
  match w.win with
  | none => (w, [])
  | some ws =>
    let start : WinState × List DrawOp :=
      if w.newline then (addch ws '\n', [DrawOp.text ('\n' :: []) ws.attr])
      else (ws, [])
    let nl : Bool := text.getLast? = some '\n'
    let body := if nl then text.dropLast else text
    let stF := (scanTok body [] Pending.noEsc).foldl (procTok o)
      ⟨start.1, 0, -1, -1, start.2⟩
    ({ w with newline := nl, win := some stF.win }, stF.ops)

/-- A sequence of appends to one window (the window's whole logical input
stream, chunk by chunk). -/
def appendAll (backloglen : Int) (o : Opts) (w : RWin) (chunks : List (List Char)) : RWin :=
  chunks.foldl (fun w t => (append backloglen o w t false).1) w

/-- The last n characters of a string: what the spec means by "the last
capacity characters of the full logical stream". -/
def lastChars (n : Nat) (s : List Char) : List Char := s.drop (s.length - n)

/-! ### The row layout of Screen.redraw

Source lines 113-134.  One row is reserved for the status bar; the remaining
height - 1 rows are divided evenly among the windows that are not inactive.
If the even share is below 4 the code retries with 4 rows per window and as
many windows as fit — and computes `(height - 1) % jobcount` with the NEW
jobcount, which is 0 whenever height - 1 < 4, raising ZeroDivisionError.
When there is a remainder, one extra row goes to each of the earliest
windows.  Python's `int(a / b)` and `a % b` on the nonnegative operands that
occur for terminal heights >= 1 are Int.ediv and Int.emod.  -/

/-- The assignment loop of source lines 126-157 reduced to the lifecycle- and
size-relevant output: the total height (title row included) of each window
region actually created, in window order.  `wins` counts the windows still to
visit; a window is assigned a region only while jobcount > 0, the rest are
hidden. -/
def assignRows (wins : Nat) (jobcount jobrows jobrowsleft : Int) : List Int :=
  match wins with
  | 0 => []
  | n + 1 =>
    if jobcount > 0 then
      let jl := if jobrowsleft > 0 then jobrowsleft - 1 else jobrowsleft
      let jr := if jobrowsleft > 0 ∧ jl = 0 then jobrows - 1 else jobrows
      jr :: assignRows n (jobcount - 1) jr jl
    else assignRows n jobcount jobrows jobrowsleft

/-- The row-layout computation of Screen.redraw (source lines 113-134) for a
terminal of the given height and the given number of non-inactive windows:
the list of assigned region heights, or none when the computation raises
ZeroDivisionError (line 121, reached whenever the reduced jobcount
`int((height-1)/4)` is zero). -/
def layoutHeights (height : Int) (activeCount : Nat) : Option (List Int) :=
  if activeCount = 0 then some []
  else
    let jobrows := Int.ediv (height - 1) activeCount
    let params : Option (Int × Int × Int) :=
      if jobrows < 4 then
        let jobcount := Int.ediv (height - 1) 4
        if jobcount = 0 then none
        else some (jobcount, 4, Int.emod (height - 1) jobcount)
      else some (activeCount, jobrows, Int.emod (height - 1) activeCount)
    match params with
    | none => none
    | some (jc, jr, jl) =>
      let jr := if jl > 0 then jr + 1 else jr
      let jl := if jl > 0 then jl + 1 else jl
      some (assignRows activeCount jc jr jl)

/-! ### The lifecycle model

Windows are identified by their basedir (the program keeps at most one
window per basedir: window_add and find_locks always look the basedir up
first).  The model tracks the lifecycle fields Screen.addwin initialises
(source lines 54-64) and the inactive list; all calls to time.time() inside
one handler are modelled as that handler's single timestamp.  Screen.redraw
replays every window that receives a region through
`self.append(w, w.backlog, True)`, which stamps the window's activity time
(line 178); the model assumes every non-inactive window receives a region,
which holds whenever the terminal is tall enough for the window count.  -/

/-- The state of one advisory lock file as seen by a non-blocking check. -/
inductive LockStatus where
  | absent : LockStatus
  | free : LockStatus
  | held : LockStatus
deriving DecidableEq, Repr

/-- check_lock (source lines 17-34): True iff the non-blocking exclusive lock
attempt fails with EACCES/EAGAIN, i.e. some process holds the lock.  A file
that cannot be opened gives False (line 21), and a lock that is acquired is
stale: it is released again and False is returned (lines 31-34).  An IOError
other than EACCES/EAGAIN re-raises; that fatal path is outside this model
(no claim concerns it). -/
def check_lock : LockStatus → Bool
  | .held => true
  | .free => false
  | .absent => false

/-- Lifecycle state of one job window (the fields Screen.addwin sets on the
FileTailer object, source lines 54-62, plus the FileTailer's own pullts). -/
structure LWin where
  basedir : String
  lockfn : Option String
  activity : Int
  lockcheck : Int
  pullts : Int
  expectclose : Int
deriving DecidableEq, Repr

/-- Lifecycle state of the Screen: the window list in discovery order and
the inactive list (kept as basedirs). -/
structure LScreen where
  windows : List LWin
  inactive : List String
deriving DecidableEq, Repr

/-- The screen right after Screen.__init__: no windows, none inactive. -/
def initLScreen : LScreen := ⟨[], []⟩

/-- Screen.findwin (source lines 74-79): first window with this basedir. -/
def findwin (b : String) (s : LScreen) : Option LWin :=
  s.windows.find? (fun w => w.basedir == b)

/-- Lifecycle effect of Screen.redraw: replaying a visible window's backlog
goes through append, which stamps the window's activity with the current
time (line 178).  Inactive windows are not replayed.  redraw touches no
other lifecycle field and not the inactive list. -/
def redrawLife (now : Int) (s : LScreen) : LScreen :=
  { s with windows := s.windows.map (fun w =>
      if s.inactive.contains w.basedir then w else { w with activity := now }) }

/-- Screen.addwin (source lines 54-64): initialise the lifecycle fields,
append the window to the list, redraw. -/
def addwin (now : Int) (b : String) (lockfn : Option String) (s : LScreen) : LScreen :=
  redrawLife now { s with windows := s.windows ++ [⟨b, lockfn, now, now, now, 0⟩] }

/-- Screen.delwin (source lines 66-72): remove the window from the window
list and, if present, from the inactive list; redraw. -/
def delwin (now : Int) (b : String) (s : LScreen) : LScreen :=
  redrawLife now
    { windows := s.windows.eraseP (fun w => w.basedir == b),
      inactive := s.inactive.erase b }

/-- Stamp window b's activity time (the first effect of Screen.append,
source line 178). -/
def stampActivity (now : Int) (b : String) (s : LScreen) : LScreen :=
  { s with windows := s.windows.map (fun (w : LWin) =>
      if w.basedir == b then { w with activity := now } else w) }

/-- Lifecycle effect of Screen.append for window b (source lines 177-181):
stamp the activity time; if the window was inactive, revive it and redraw
(stamping the activity first does not change the membership test the source
performs on the untouched inactive list). -/
def appendLife (now : Int) (b : String) (s : LScreen) : LScreen :=
  if s.inactive.contains b then
    redrawLife now
      { windows := (stampActivity now b s).windows, inactive := s.inactive.erase b }
  else stampActivity now b s

/-- Inotifier.process_IN_CLOSE_WRITE (source lines 466-481) for a close-write
event whose pathname resolves to basedir b (the fetch log resolves to the
fetch window's basedir, any other path to the lock file's package basedir).
If a window exists: a positive expectclose is consumed, otherwise the window
is deleted. -/
def processCloseWrite (now : Int) (b : String) (s : LScreen) : LScreen :=
  match findwin b s with
  | none => s
  | some w =>
    if w.expectclose > 0 then
      { s with windows := s.windows.map (fun w2 =>
          if w2.basedir == b then { w2 with expectclose := w2.expectclose - 1 } else w2) }
    else delwin now b s

/-- Stamp window b's pullts (FileTailer.pull, source line 351). -/
def stampPullts (ts : Int) (b : String) (s : LScreen) : LScreen :=
  { s with windows := s.windows.map (fun (w2 : LWin) =>
      if w2.basedir == b then { w2 with pullts := ts } else w2) }

/-- The forced pull for one window (source lines 298-301): when due, the
pull stamps pullts; the pulls oracle says whether the log had new data, in
which case append runs (lifecycle effect: appendLife). -/
def pullPhase (ts pullint : Int) (pulls : String → Bool) (b : String) (w : LWin)
    (s : LScreen) : LScreen :=
  if pullint ≠ 0 ∧ ts - w.pullts ≥ pullint then
    if pulls b then appendLife ts b (stampPullts ts b s) else stampPullts ts b s
  else s

/-- The inactivity sweep for one window (source lines 303-305): an active
window idle for acttimeout goes inactive and sets the redraw flag; disabled
when acttimeout is 0. -/
def inactPhase (ts acttimeout : Int) (b : String) (w : LWin) (s : LScreen)
    (rd : Bool) : LScreen × Bool :=
  if acttimeout ≠ 0 ∧ ¬ s.inactive.contains b ∧ ts - w.activity ≥ acttimeout then
    ({ s with inactive := s.inactive ++ [b] }, true)
  else (s, rd)

/-- Increment window b's expectclose (the first effect of a due lock
re-check, source line 308). -/
def stampExpect (b : String) (s : LScreen) : LScreen :=
  { s with windows := s.windows.map (fun (w2 : LWin) =>
      if w2.basedir == b then { w2 with expectclose := w2.expectclose + 1 } else w2) }

/-- Stamp window b's lockcheck time (source line 312). -/
def stampLockcheck (ts : Int) (b : String) (s : LScreen) : LScreen :=
  { s with windows := s.windows.map (fun (w2 : LWin) =>
      if w2.basedir == b then { w2 with lockcheck := ts } else w2) }

/-- The lock re-check for one window (source lines 307-312): when the window
has a lock path and is inactive (or inactivity detection is disabled) and the
check is due, expectclose is incremented FIRST, then the lock is polled:
a lock that is not held schedules the window for removal, a held lock stamps
lockcheck. -/
def lockPhase (ts acttimeout lockcheckint : Int) (locks : String → LockStatus)
    (b : String) (w : LWin) (s : LScreen) (winrem : List String) (rd : Bool) :
    LScreen × List String × Bool :=
  match w.lockfn with
  | none => (s, winrem, rd)
  | some lf =>
    if (acttimeout = 0 ∨ s.inactive.contains b) ∧ ts - w.lockcheck ≥ lockcheckint then
      if ¬ check_lock (locks lf) then (stampExpect b s, winrem ++ [b], rd)
      else (stampLockcheck ts b (stampExpect b s), winrem, rd)
    else (s, winrem, rd)

/-- The body of the per-window loop of Screen.checkact (source lines
297-312), processing the window with basedir b: forced pull, inactivity
check, lock re-check.  The window is re-read after the pull because a pull
that delivers data refreshes the activity field the inactivity check reads
(the inactivity phase itself never touches the window list, and the lock
phase reads only lockfn and lockcheck, which the earlier phases never
write).  The accumulator carries the screen, the winrem list and the redraw
flag. -/
def checkactStep (ts pullint acttimeout lockcheckint : Int) (pulls : String → Bool)
    (locks : String → LockStatus) (acc : LScreen × List String × Bool) (b : String) :
    LScreen × List String × Bool :=
  match findwin b acc.1 with
  | none => acc
  | some w =>
    let s1 := pullPhase ts pullint pulls b w acc.1
    let w1 := (findwin b s1).getD w
    let p2 := inactPhase ts acttimeout b w1 s1 acc.2.2
    lockPhase ts acttimeout lockcheckint locks b w1 p2.1 acc.2.1 p2.2

/-- The loop of Screen.checkact over the window list (which removal defers
past, via winrem), returning the screen, the winrem list and the redraw
flag. -/
def checkactCore (ts pullint acttimeout lockcheckint : Int) (pulls : String → Bool)
    (locks : String → LockStatus) (s : LScreen) : LScreen × List String × Bool :=
  (s.windows.map (fun w => w.basedir)).foldl
    (checkactStep ts pullint acttimeout lockcheckint pulls locks) (s, [], false)

/-- The removal loop at the end of Screen.checkact (source lines 314-315). -/
def checkactRemove (ts : Int) (r : LScreen × List String × Bool) : LScreen :=
  r.2.1.foldl (fun s b => delwin ts b s) r.1

/-- Screen.checkact (source lines 293-318): run the per-window loop, delete
the windows scheduled for removal, redraw if some window went inactive. -/
def checkact (ts pullint acttimeout lockcheckint : Int) (pulls : String → Bool)
    (locks : String → LockStatus) (s : LScreen) : LScreen :=
  if (checkactCore ts pullint acttimeout lockcheckint pulls locks s).2.2 then
    redrawLife ts
      (checkactRemove ts (checkactCore ts pullint acttimeout lockcheckint pulls locks s))
  else checkactRemove ts (checkactCore ts pullint acttimeout lockcheckint pulls locks s)

/-- The events that drive the lifecycle state, with the wall-clock time at
which they are handled: a timer tick (timeriter's checkact call, source line
485, with that run's option values and the pull/lock outcomes), a close-write
notification, a modify notification (process_IN_MODIFY, lines 448-464: the
fetch window is created on first fetch-log activity, then the window's log is
pulled and any data appended), and a log-creation notification
(process_IN_CREATE via window_add, lines 393-411 and 440-446: a window is
added only if the basedir has none yet). -/
inductive LEvent where
  | tick : Int → Int → Int → Int → (String → Bool) → (String → LockStatus) → LEvent
  | closeWrite : Int → String → LEvent
  | modify : Int → String → Bool → LEvent
  | create : Int → String → Option String → LEvent

/-- The basedir of the auxiliary fetch-log window (source lines 453, 468). -/
def fetchDir : String := "_fetch"

/-- The pull-and-append tail of process_IN_MODIFY (source lines 461-464):
when the basedir has a window, pull (stamping pullts) and append any data. -/
def modifyPull (ts : Int) (b : String) (hasData : Bool) (s : LScreen) : LScreen :=
  match findwin b s with
  | none => s
  | some _ =>
    if hasData then appendLife ts b (stampPullts ts b s) else stampPullts ts b s

/-- Handle one event. -/
def stepEvent (s : LScreen) (e : LEvent) : LScreen :=
  match e with
  | .tick ts pullint acttimeout lockcheckint pulls locks =>
    checkact ts pullint acttimeout lockcheckint pulls locks s
  | .closeWrite ts b => processCloseWrite ts b s
  | .modify ts b hasData =>
    if b = fetchDir ∧ findwin b s = none then
      modifyPull ts b hasData (addwin ts b none s)
    else modifyPull ts b hasData s
  | .create ts b lockfn => if (findwin b s).isSome then s else addwin ts b lockfn s

/-- A run of the event loop from a starting screen. -/
def runEvents (s : LScreen) (evs : List LEvent) : LScreen := evs.foldl stepEvent s

/-! ### Backlog lemmas (claim C1) -/

/-- The backlog update of one append (source lines 183-185), independent of
window visibility. -/
theorem append_backlog (cap : Int) (o : Opts) (w : RWin) (text : List Char) :
    ((append cap o w text false).1).backlog = pyTailSlice cap (w.backlog ++ text) := by
  unfold append
  cases h : w.win <;> simp [h]

/-- Taking the last n characters twice absorbs: the last n of
(last n of s, then t) are the last n of (s then t). -/
theorem lastChars_append_absorb (n : Nat) (s t : List Char) :
    lastChars n (lastChars n s ++ t) = lastChars n (s ++ t) := by
  unfold lastChars
  rw [List.drop_append_eq_append_drop, List.drop_append_eq_append_drop, List.drop_drop]
  simp only [List.length_drop, List.length_append]
  congr 1
  · congr 1
    omega
  · congr 1
    omega

theorem lastChars_length_le (n : Nat) (s : List Char) : (lastChars n s).length ≤ n := by
  simp only [lastChars, List.length_drop]
  omega

theorem pyTailSlice_of_pos (cap : Int) (h : 0 < cap) (s : List Char) :
    pyTailSlice cap s = lastChars cap.toNat s := by
  simp [pyTailSlice, lastChars, h]

/-- Claim C1 (amended): with the backlog capacity fixed at a positive value,
after any sequence of appends the retained backlog is exactly the last
`capacity` characters of the concatenation of everything appended, and in
particular never exceeds the capacity.  (For capacity 0 — a two-row
terminal — the code retains the whole stream instead: Python `bl[-0:]` is
the whole string; see the counterexample.) -/
theorem backlog_bound (cap : Int) (hcap : 1 ≤ cap) (o : Opts) (w0 : RWin)
    (hw0 : w0.backlog = []) (chunks : List (List Char)) :
    (appendAll cap o w0 chunks).backlog = lastChars cap.toNat chunks.flatten
  ∧ (appendAll cap o w0 chunks).backlog.length ≤ cap.toNat := by
  have hpos : (0 : Int) < cap := by omega
  have key : ∀ cs : List (List Char),
      (appendAll cap o w0 cs).backlog = lastChars cap.toNat cs.flatten := by
    intro cs
    induction cs using List.reverseRecOn with
    | nil => simp [appendAll, hw0, lastChars]
    | append_singleton l t ih =>
      have : appendAll cap o w0 (l ++ [t]) =
          (append cap o (appendAll cap o w0 l) t false).1 := by
        simp [appendAll, List.foldl_append]
      rw [this, append_backlog, ih, pyTailSlice_of_pos cap hpos,
        lastChars_append_absorb]
      simp
  exact ⟨key chunks, by rw [key chunks]; exact lastChars_length_le _ _⟩

/-- Claim C1 witness: a concrete run at capacity 3. -/
theorem backlog_bound_witness :
    (appendAll 3 defOpts ⟨[], false, none⟩
        (('a' :: 'b' :: []) :: ('c' :: 'd' :: []) :: [])).backlog
      = lastChars (Int.toNat 3) ((('a' :: 'b' :: []) :: ('c' :: 'd' :: []) :: []).flatten)
  ∧ (appendAll 3 defOpts ⟨[], false, none⟩
        (('a' :: 'b' :: []) :: ('c' :: 'd' :: []) :: [])).backlog.length ≤ Int.toNat 3 :=
  backlog_bound 3 (by decide) defOpts ⟨[], false, none⟩ rfl
    (('a' :: 'b' :: []) :: ('c' :: 'd' :: []) :: [])

/-- Claim C1 counterexample: on a 2-row terminal the capacity is 0, yet the
backlog after appending one character has length 1, because Python
`bl[-0:]` keeps the whole string — the claimed bound
`len(backlog) <= capacity` fails for that window. -/
theorem backlog_zero_capacity_counterexample :
    backlogCapacity 2 80 = 0
  ∧ ¬ ((appendAll (backlogCapacity 2 80) defOpts ⟨[], false, none⟩
        (('a' :: []) :: [])).backlog.length ≤ (backlogCapacity 2 80).toNat) := by
  decide

/-! ### Layout (claim C3) -/

/-- Claim C3: the layout computation does NOT always succeed.  On a 4-row
(or shorter) terminal with one non-inactive window the reduced
`jobcount = int((height-1)/4)` is 0 and `(height - 1) % jobcount` raises
ZeroDivisionError (source line 121) — the claimed "all windows hidden, only
the status bar" outcome is never reached.  For comparison, a 5-row terminal
succeeds with one 4-row region, and a too-small terminal with NO window is
fine (the division is never reached). -/
theorem layout_small_terminal_divzero :
    layoutHeights 4 1 = none
  ∧ layoutHeights 1 1 = none
  ∧ layoutHeights 5 1 = some (4 :: [])
  ∧ layoutHeights 4 0 = some [] := by
  decide

/-! ### CSI H is dead code (claim C7) -/

def csiHChunk : List Char := '\x1b' :: '[' :: 'H' :: []

def csiHRowColChunk : List Char := '\x1b' :: '[' :: '2' :: ';' :: '3' :: 'H' :: []

/-- Claim C7: `ESC [ H` (and `ESC [ 2 ; 3 H`) do NOT move the cursor: the
guard `ord(func) in range(ord('A'), ord('H'))` on source line 249 excludes
'H' (Python ranges exclude their upper bound), so every CSI H sequence falls
through to the unsupported-function branch and is ignored — the cursor stays
at its old position (2, 3) instead of moving to the claimed 1;1 (internal
(0, 0)) or 2;3, and no draw operation is emitted. -/
theorem csi_H_ignored :
    append 160 defOpts ⟨[], false, some ⟨10, 20, 2, 3, defaultAttr⟩⟩ csiHChunk false
      = (⟨csiHChunk, false, some ⟨10, 20, 2, 3, defaultAttr⟩⟩, [])
  ∧ append 160 defOpts ⟨[], false, some ⟨10, 20, 2, 3, defaultAttr⟩⟩ csiHRowColChunk false
      = (⟨csiHRowColChunk, false, some ⟨10, 20, 2, 3, defaultAttr⟩⟩, []) := by
  decide

/-! ### CSI E / CSI F set column 1, not column 0 (claim C8) -/

def csiEChunk : List Char := '\x1b' :: '[' :: 'E' :: []

def csiFChunk : List Char := '\x1b' :: '[' :: 'F' :: []

/-- Claim C8: processing CSI E (next line) or CSI F (previous line) assigns
the literal internal column 1 (source line 275 `x = 1`), i.e. the SECOND
column — not the start of the line (internal column 0) that the claim
states: from cursor (5, 7) on a 10x20 window, CSI E yields (6, 1) and CSI F
yields (4, 1). -/
theorem csi_EF_column_one :
    (append 200 defOpts ⟨[], false, some ⟨10, 20, 5, 7, defaultAttr⟩⟩ csiEChunk false).1.win
      = some ⟨10, 20, 6, 1, defaultAttr⟩
  ∧ (append 200 defOpts ⟨[], false, some ⟨10, 20, 5, 7, defaultAttr⟩⟩ csiFChunk false).1.win
      = some ⟨10, 20, 4, 1, defaultAttr⟩ := by
  decide

/-! ### The fetch window and close-write (claim C2) -/

/-- A screen holding exactly the fetch-log window, as created by
process_IN_MODIFY on first fetch-log activity (source lines 449-453):
no lock path, expectclose 0. -/
def fetchScreen : LScreen := addwin 0 fetchDir none initLScreen

/-- Claim C2 counterexample: the fetch-log window exists, and processing one
close-write notification for the fetch log removes it from the window list —
process_IN_CLOSE_WRITE maps the fetch log to basedir `_fetch` (source lines
467-468) and deletes the window because its expectclose is 0 (lines
476-481); nothing exempts a window without a lock path. -/
theorem fetch_close_write_removes :
    (findwin fetchDir fetchScreen).isSome = true
  ∧ findwin fetchDir (processCloseWrite 1 fetchDir fetchScreen) = none := by
  decide

theorem find_basedir_eraseP (b : String) (l : List LWin)
    (hnd : (l.map (fun w => w.basedir)).Nodup) :
    List.find? (fun w => w.basedir == b) (List.eraseP (fun w => w.basedir == b) l)
      = none := by
  induction l with
  | nil => rfl
  | cons x xs ih =>
    simp only [List.map_cons, List.nodup_cons] at hnd
    by_cases hx : x.basedir == b
    · rw [List.eraseP_cons, hx]
      rw [cond_true, List.find?_eq_none]
      intro y hy hyb
      have hxb : x.basedir = b := by simpa using hx
      have hybe : y.basedir = b := by simpa using hyb
      exact hnd.1 (by rw [hxb, ← hybe]; exact List.mem_map_of_mem _ hy)
    · rw [List.eraseP_cons]
      rw [show (x.basedir == b) = false from by simpa using hx]
      rw [cond_false,
        @List.find?_cons_of_neg LWin (fun w => w.basedir == b) x
          (List.eraseP (fun w => w.basedir == b) xs) hx]
      exact ih hnd.2

theorem find_basedir_map_none (b : String) (f : LWin → LWin)
    (hf : ∀ w, (f w).basedir = w.basedir) (l : List LWin)
    (h : List.find? (fun w => w.basedir == b) l = none) :
    List.find? (fun w => w.basedir == b) (l.map f) = none := by
  rw [List.find?_eq_none] at h ⊢
  intro y hy
  rcases List.mem_map.mp hy with ⟨x, hx, rfl⟩
  simpa [hf x] using h x hx

/-- Claim C2 (amended): a close-write notification for the fetch log follows
the same reconciliation path as every other window — since the fetch window
has no lock path its expectclose is never incremented, so whenever it is 0
the close-write event REMOVES the fetch window from the window list (it is
re-created on the next fetch-log modify event). -/
theorem fetch_close_write_amended (ts : Int) (s : LScreen) (w : LWin)
    (hnd : (s.windows.map (fun w2 => w2.basedir)).Nodup)
    (hfind : findwin fetchDir s = some w) (hexp : w.expectclose = 0) :
    findwin fetchDir (processCloseWrite ts fetchDir s) = none := by
  unfold processCloseWrite
  rw [hfind]
  simp only [hexp]
  norm_num
  unfold delwin redrawLife findwin
  exact find_basedir_map_none _ _ (fun w2 => by split <;> rfl) _
    (find_basedir_eraseP _ _ hnd)

/-- Claim C2 witness for the amended statement, at the concrete one-window
fetch screen. -/
theorem fetch_close_write_amended_witness :
    findwin fetchDir (processCloseWrite 5 fetchDir fetchScreen) = none :=
  fetch_close_write_amended 5 fetchScreen ⟨fetchDir, none, 0, 0, 0, 0⟩
    (by decide) (by decide) rfl

/-! ### Interpreter-state lemmas (claims C9 and C10) -/

theorem addch_attr (ws : WinState) (c : Char) : (addch ws c).attr = ws.attr := by
  unfold addch
  split_ifs <;> rfl

theorem addstrWin_attr (s : List Char) : ∀ ws : WinState, (addstrWin ws s).attr = ws.attr := by
  induction s with
  | nil => intro ws; rfl
  | cons c cs ih =>
    intro ws
    show (List.foldl addch (addch ws c) cs).attr = ws.attr
    rw [show List.foldl addch (addch ws c) cs = addstrWin (addch ws c) cs from rfl,
      ih (addch ws c), addch_attr]

/-- A chunk with no ESC and no BEL characters tokenises to (at most) one
literal run. -/
theorem scanTok_plain (cs : List Char) (h : ∀ c ∈ cs, c ≠ '\x1b' ∧ c ≠ '\x07') :
    ∀ acc, scanTok cs acc .noEsc = pushLit (acc ++ cs) [] := by
  induction cs with
  | nil => intro acc; simp [scanTok, flushPend]
  | cons c cs ih =>
    intro acc
    have hc := h c (List.mem_cons_self _ _)
    rw [scanTok, if_neg hc.2, if_neg hc.1,
      ih (fun c2 hc2 => h c2 (List.mem_cons_of_mem _ hc2)) (acc ++ [c])]
    simp

/-- One token step decomposes into its ops contribution appended to the
prior ops; the other components do not depend on the prior ops. -/
theorem procTok_split (o : Opts) (ws : WinState) (m : Nat) (fg bg : Int)
    (ops0 : List DrawOp) (t : Tok) :
    procTok o ⟨ws, m, fg, bg, ops0⟩ t
      = { procTok o ⟨ws, m, fg, bg, []⟩ t with
          ops := ops0 ++ (procTok o ⟨ws, m, fg, bg, []⟩ t).ops } := by
  cases t with
  | lit s => simp [procTok]
  | bell => simp [procTok]
  | esc ps f =>
    simp only [procTok]
    split_ifs <;> simp

/-- The token fold decomposes likewise. -/
theorem foldl_procTok_split (o : Opts) (toks : List Tok) :
    ∀ (ws : WinState) (m : Nat) (fg bg : Int) (ops0 : List DrawOp),
    toks.foldl (procTok o) ⟨ws, m, fg, bg, ops0⟩
      = { toks.foldl (procTok o) ⟨ws, m, fg, bg, []⟩ with
          ops := ops0 ++ (toks.foldl (procTok o) ⟨ws, m, fg, bg, []⟩).ops } := by
  induction toks with
  | nil => intro ws m fg bg ops0; simp
  | cons t ts ih =>
    intro ws m fg bg ops0
    simp only [List.foldl_cons]
    rw [procTok_split o ws m fg bg ops0 t]
    rcases hX : procTok o ⟨ws, m, fg, bg, []⟩ t with ⟨w2, m2, f2, b2, ops2⟩
    show ts.foldl (procTok o) ⟨w2, m2, f2, b2, ops0 ++ ops2⟩ = _
    rw [ih w2 m2 f2 b2 (ops0 ++ ops2), ih w2 m2 f2 b2 ops2]
    simp

/-- Does a draw operation write literal text under this attribute? -/
def opUsesAttr (a : Attr) : DrawOp → Bool
  | .text _ a2 => a2 == a
  | _ => false

/-- For a visible window, a chunk containing no escape and no bell
characters is drawn entirely under the attribute the window state already
carries (the deferred newline, if any, included). -/
theorem append_plain_ops (cap : Int) (o : Opts) (w : RWin) (ws : WinState)
    (text : List Char) (hw : w.win = some ws)
    (h2 : ∀ c ∈ text, c ≠ '\x1b' ∧ c ≠ '\x07') :
    ((append cap o w text false).2).all (opUsesAttr ws.attr) = true := by
  unfold append
  simp only [Bool.false_eq_true, if_false, hw]
  cases hb : w.newline with
  | false =>
    simp only [hb, Bool.false_eq_true, if_false]
    generalize hg : (if decide (text.getLast? = some '\n') = true then text.dropLast else text) = body
    have hbody : ∀ c ∈ body, c ≠ '\x1b' ∧ c ≠ '\x07' := by
      rw [← hg]
      intro c hc
      split at hc
      · exact h2 c (List.dropLast_subset _ hc)
      · exact h2 c hc
    rw [scanTok_plain body hbody []]
    simp only [List.nil_append]
    unfold pushLit
    split
    · rfl
    · simp [procTok, opUsesAttr]
  | true =>
    simp only [hb, if_true]
    generalize hg : (if decide (text.getLast? = some '\n') = true then text.dropLast else text) = body
    have hbody : ∀ c ∈ body, c ≠ '\x1b' ∧ c ≠ '\x07' := by
      rw [← hg]
      intro c hc
      split at hc
      · exact h2 c (List.dropLast_subset _ hc)
      · exact h2 c hc
    rw [scanTok_plain body hbody []]
    simp only [List.nil_append]
    unfold pushLit
    split
    · simp [opUsesAttr]
    · simp [procTok, opUsesAttr, addch_attr]

/-- Claim C9: the rendering state installed by SGR processing is per-window
curses state that persists across append calls: whatever attribute the
window's interpreter state carries after one chunk, the literal text of the
next chunk — one containing no escape and no bell characters — is drawn
entirely under that same attribute (the deferred newline included). -/
theorem sgr_state_persists (cap : Int) (o : Opts) (w : RWin) (text1 text2 : List Char)
    (ws1 : WinState) (h1 : ((append cap o w text1 false).1).win = some ws1)
    (h2 : ∀ c ∈ text2, c ≠ '\x1b' ∧ c ≠ '\x07') :
    ((append cap o (append cap o w text1 false).1 text2 false).2).all
      (opUsesAttr ws1.attr) = true :=
  append_plain_ops cap o (append cap o w text1 false).1 ws1 text2 h1 h2

/-- A fresh visible 10x80 window with default attributes. -/
def sgrWin : RWin := ⟨[], false, some ⟨10, 80, 0, 0, defaultAttr⟩⟩

def sgrChunk1 : List Char := '\x1b' :: '[' :: '3' :: '1' :: 'm' :: []

def sgrChunk2 : List Char := 'x' :: 'y' :: []

/-- The window state after sgrChunk1: red foreground installed. -/
def sgrWS1 : WinState := ⟨10, 80, 0, 0, ⟨0, 1, -1⟩⟩

/-- Claim C9 witness: after a chunk that is just `ESC [ 31 m`, the literal
text of the next chunk is drawn in the red foreground it installed. -/
theorem sgr_state_persists_witness :
    ((append 640 defOpts (append 640 defOpts sgrWin sgrChunk1 false).1
        sgrChunk2 false).2).all (opUsesAttr sgrWS1.attr) = true :=
  sgr_state_persists 640 defOpts sgrWin sgrChunk1 sgrChunk2 sgrWS1
    (by decide) (by decide)

/-! ### Deferred trailing newline (claim C10) -/

/-- The fresh 10x80 window of the scenario-B run. -/
def sbWS : WinState := ⟨10, 80, 0, 0, defaultAttr⟩

def sbWin : RWin := ⟨[], false, some sbWS⟩

/-- The scenario-B input chunk: abc, SGR red, red, SGR reset, def,
trailing newline. -/
def sbChunk : List Char := "abc\x1b[31mred\x1b[0mdef\n".toList

/-- Claim C10: a trailing newline of a chunk is deferred — the pendingNewline
flag is set and nothing more is drawn for it in that append — and it is
drawn, under the window's current attribute, as the FIRST action of the next
chunk appended to the same visible window.  On the concrete scenario-B chunk
the draw operations are exactly: abc in default attributes, red in the ANSI
red foreground, def in default attributes, with no newline drawn; the
following one-character chunk first draws the deferred newline. -/
theorem deferred_newline (cap : Int) (o : Opts) (w : RWin) (ws : WinState)
    (text : List Char) (hw : w.win = some ws) (hnl : text.getLast? = some '\n')
    (w2 : RWin) (ws2 : WinState) (text2 : List Char)
    (hw2 : w2.win = some ws2) (hnl2 : w2.newline = true) :
    ((append cap o w text false).1.newline = true)
  ∧ ((append cap o w2 text2 false).2.head? = some (DrawOp.text ('\n' :: []) ws2.attr))
  ∧ ((append 640 defOpts sbWin sbChunk false).2
      = DrawOp.text ('a' :: 'b' :: 'c' :: []) defaultAttr
        :: DrawOp.text ('r' :: 'e' :: 'd' :: []) ⟨0, 1, -1⟩
        :: DrawOp.text ('d' :: 'e' :: 'f' :: []) defaultAttr :: [])
  ∧ ((append 640 defOpts sbWin sbChunk false).1.newline = true)
  ∧ ((append 640 defOpts (append 640 defOpts sbWin sbChunk false).1
        ('x' :: []) false).2
      = DrawOp.text ('\n' :: []) defaultAttr
        :: DrawOp.text ('x' :: []) defaultAttr :: []) := by
  refine ⟨?_, ?_, by decide, by decide, by decide⟩
  · unfold append
    simp only [Bool.false_eq_true, if_false, hw]
    simp [hnl]
  · unfold append
    simp only [Bool.false_eq_true, if_false, hw2, hnl2, if_true]
    rw [foldl_procTok_split]
    simp

/-! ### expectclose never goes negative (claim C4) -/

/-- The window-list invariant carried through every event: every expectclose
is nonnegative, and basedirs are unique (the program keeps at most one window
per source: every window-creating path looks the basedir up first). -/
def WInv (l : List LWin) : Prop :=
  (∀ w ∈ l, 0 ≤ w.expectclose) ∧ (l.map (fun w => w.basedir)).Nodup

def InvL (s : LScreen) : Prop := WInv s.windows

theorem winv_map (l : List LWin) (f : LWin → LWin)
    (hbd : ∀ w, (f w).basedir = w.basedir)
    (hec : ∀ w ∈ l, 0 ≤ w.expectclose → 0 ≤ (f w).expectclose)
    (h : WInv l) : WInv (l.map f) := by
  refine ⟨?_, ?_⟩
  · intro w hw
    rcases List.mem_map.mp hw with ⟨x, hx, rfl⟩
    exact hec x hx (h.1 x hx)
  · rw [List.map_map,
      show ((fun w => w.basedir) ∘ f) = (fun (w : LWin) => w.basedir) from funext hbd]
    exact h.2

theorem winv_eraseP (l : List LWin) (p : LWin → Bool) (h : WInv l) :
    WInv (l.eraseP p) :=
  ⟨fun w hw => h.1 w ((List.eraseP_sublist l).subset hw),
   List.Nodup.sublist (List.Sublist.map _ (List.eraseP_sublist l)) h.2⟩

theorem winv_append_new (l : List LWin) (b : String) (lockfn : Option String)
    (now : Int) (h : WInv l)
    (hnew : List.find? (fun w => w.basedir == b) l = none) :
    WInv (l ++ [⟨b, lockfn, now, now, now, 0⟩]) := by
  have hnotin : ∀ x ∈ l, x.basedir ≠ b := by
    intro x hx
    have := (List.find?_eq_none.mp hnew) x hx
    simpa using this
  refine ⟨?_, ?_⟩
  · intro w hw
    rcases List.mem_append.mp hw with hw | hw
    · exact h.1 w hw
    · rw [List.mem_singleton.mp hw]
  · rw [List.map_append]
    refine List.Nodup.append h.2 (by simp) ?_
    intro a ha hb
    rcases List.mem_map.mp ha with ⟨x, hx, rfl⟩
    exact hnotin x hx (List.mem_singleton.mp hb)

theorem find_basedir_unique (b : String) (w : LWin) :
    ∀ (l : List LWin), (l.map (fun w2 => w2.basedir)).Nodup →
    List.find? (fun w2 => w2.basedir == b) l = some w →
    ∀ x ∈ l, x.basedir = b → x = w := by
  intro l
  induction l with
  | nil => intro _ hf; simp at hf
  | cons y ys ih =>
    intro hnd hf x hx hxb
    simp only [List.map_cons, List.nodup_cons] at hnd
    cases hy : (y.basedir == b) with
    | true =>
      simp only [List.find?_cons, hy] at hf
      rcases List.mem_cons.mp hx with rfl | hx2
      · exact (Option.some.inj hf)
      · exfalso
        apply hnd.1
        have hyb : y.basedir = b := by simpa using hy
        rw [hyb, ← hxb]
        exact List.mem_map_of_mem _ hx2
    | false =>
      simp only [List.find?_cons, hy] at hf
      rcases List.mem_cons.mp hx with rfl | hx2
      · exact absurd (by simpa using hxb) (by simpa using hy)
      · exact ih hnd.2 hf x hx2 hxb

theorem invL_redrawLife (now : Int) (s : LScreen) (h : InvL s) :
    InvL (redrawLife now s) := by
  show WInv (s.windows.map _)
  apply winv_map _ _ ?_ ?_ h
  · intro w
    dsimp only
    split
    · rfl
    · rfl
  · intro w hw he
    dsimp only
    split
    · exact he
    · exact he

/-- Every per-window stamp operation preserves the invariant as long as the
stamped window's basedir and expectclose-nonnegativity are preserved. -/
theorem invL_stampField (s : LScreen) (g : LWin → LWin) (b : String)
    (hbd : ∀ w, (g w).basedir = w.basedir)
    (hec : ∀ w, 0 ≤ w.expectclose → 0 ≤ (g w).expectclose)
    (h : InvL s) :
    InvL { s with windows := s.windows.map (fun w2 =>
      if w2.basedir == b then g w2 else w2) } := by
  show WInv _
  apply winv_map _ _ ?_ ?_ h
  · intro w
    dsimp only
    split
    · exact hbd w
    · rfl
  · intro w hw he
    dsimp only
    split
    · exact hec w he
    · exact he

theorem invL_addwin (now : Int) (b : String) (lockfn : Option String) (s : LScreen)
    (h : InvL s) (hnew : findwin b s = none) : InvL (addwin now b lockfn s) :=
  invL_redrawLife now _ (winv_append_new s.windows b lockfn now h hnew)

theorem invL_delwin (now : Int) (b : String) (s : LScreen) (h : InvL s) :
    InvL (delwin now b s) :=
  invL_redrawLife now _ (winv_eraseP s.windows _ h)

theorem invL_stampActivity (now : Int) (b : String) (s : LScreen) (h : InvL s) :
    InvL (stampActivity now b s) :=
  invL_stampField s (fun w => { w with activity := now }) b
    (fun _ => rfl) (fun _ he => he) h

theorem invL_stampPullts (ts : Int) (b : String) (s : LScreen) (h : InvL s) :
    InvL (stampPullts ts b s) :=
  invL_stampField s (fun w => { w with pullts := ts }) b
    (fun _ => rfl) (fun _ he => he) h

theorem invL_stampExpect (b : String) (s : LScreen) (h : InvL s) :
    InvL (stampExpect b s) :=
  invL_stampField s (fun w => { w with expectclose := w.expectclose + 1 }) b
    (fun _ => rfl) (fun _ he => by dsimp only; omega) h

theorem invL_stampLockcheck (ts : Int) (b : String) (s : LScreen) (h : InvL s) :
    InvL (stampLockcheck ts b s) :=
  invL_stampField s (fun w => { w with lockcheck := ts }) b
    (fun _ => rfl) (fun _ he => he) h

theorem invL_appendLife (now : Int) (b : String) (s : LScreen) (h : InvL s) :
    InvL (appendLife now b s) := by
  unfold appendLife
  split
  · exact invL_redrawLife now _ (invL_stampActivity now b s h)
  · exact invL_stampActivity now b s h

theorem invL_processCloseWrite (now : Int) (b : String) (s : LScreen) (h : InvL s) :
    InvL (processCloseWrite now b s) := by
  unfold processCloseWrite
  split
  · exact h
  · rename_i w hfind
    split_ifs with hpos
    · show WInv _
      apply winv_map _ _ ?_ ?_ h
      · intro w2
        dsimp only
        split
        · rfl
        · rfl
      · intro w2 hw2 he2
        dsimp only
        split
        · rename_i hb2
          have hw2w : w2 = w :=
            find_basedir_unique b w s.windows h.2 hfind w2 hw2 (by simpa using hb2)
          rw [hw2w]
          dsimp only
          omega
        · exact he2
    · exact invL_delwin now b s h

theorem invL_pullPhase (ts pullint : Int) (pulls : String → Bool) (b : String)
    (w : LWin) (s : LScreen) (h : InvL s) : InvL (pullPhase ts pullint pulls b w s) := by
  unfold pullPhase
  split
  · split
    · exact invL_appendLife ts b _ (invL_stampPullts ts b s h)
    · exact invL_stampPullts ts b s h
  · exact h

theorem invL_inactPhase (ts acttimeout : Int) (b : String) (w : LWin) (s : LScreen)
    (rd : Bool) (h : InvL s) : InvL (inactPhase ts acttimeout b w s rd).1 := by
  unfold inactPhase
  split
  · exact h
  · exact h

theorem invL_lockPhase (ts acttimeout lockcheckint : Int) (locks : String → LockStatus)
    (b : String) (w : LWin) (s : LScreen) (winrem : List String) (rd : Bool)
    (h : InvL s) :
    InvL (lockPhase ts acttimeout lockcheckint locks b w s winrem rd).1 := by
  unfold lockPhase
  split
  · exact h
  · split
    · split
      · exact invL_stampExpect b s h
      · exact invL_stampLockcheck ts b _ (invL_stampExpect b s h)
    · exact h

theorem invL_checkactStep (ts pullint acttimeout lockcheckint : Int)
    (pulls : String → Bool) (locks : String → LockStatus)
    (acc : LScreen × List String × Bool) (b : String) (h : InvL acc.1) :
    InvL (checkactStep ts pullint acttimeout lockcheckint pulls locks acc b).1 := by
  unfold checkactStep
  split
  · exact h
  · rename_i w hfind
    exact invL_lockPhase _ _ _ _ _ _ _ _ _
      (invL_inactPhase _ _ _ _ _ _ (invL_pullPhase _ _ _ _ _ _ h))

theorem invL_foldl_checkactStep (ts pullint acttimeout lockcheckint : Int)
    (pulls : String → Bool) (locks : String → LockStatus) :
    ∀ (bs : List String) (acc : LScreen × List String × Bool), InvL acc.1 →
    InvL ((bs.foldl (checkactStep ts pullint acttimeout lockcheckint pulls locks) acc)).1 := by
  intro bs
  induction bs with
  | nil => intro acc h; exact h
  | cons b bs ih =>
    intro acc h
    exact ih _ (invL_checkactStep _ _ _ _ _ _ acc b h)

theorem invL_foldl_delwin (ts : Int) :
    ∀ (l : List String) (s : LScreen), InvL s →
    InvL (l.foldl (fun s b => delwin ts b s) s) := by
  intro l
  induction l with
  | nil => intro s h; exact h
  | cons b bs ih =>
    intro s h
    exact ih _ (invL_delwin ts b s h)

theorem invL_checkactRemove (ts : Int) (r : LScreen × List String × Bool)
    (h : InvL r.1) : InvL (checkactRemove ts r) :=
  invL_foldl_delwin ts r.2.1 r.1 h

theorem invL_checkact (ts pullint acttimeout lockcheckint : Int)
    (pulls : String → Bool) (locks : String → LockStatus) (s : LScreen)
    (h : InvL s) : InvL (checkact ts pullint acttimeout lockcheckint pulls locks s) := by
  unfold checkact
  have h1 := invL_foldl_checkactStep ts pullint acttimeout lockcheckint pulls locks
    (s.windows.map (fun w => w.basedir)) (s, [], false) h
  have h2 := invL_checkactRemove ts _ h1
  split
  · exact invL_redrawLife ts _ h2
  · exact h2

theorem invL_modifyPull (ts : Int) (b : String) (hasData : Bool) (s : LScreen)
    (h : InvL s) : InvL (modifyPull ts b hasData s) := by
  unfold modifyPull
  split
  · exact h
  · split
    · exact invL_appendLife ts b _ (invL_stampPullts ts b s h)
    · exact invL_stampPullts ts b s h

theorem invL_stepEvent (s : LScreen) (e : LEvent) (h : InvL s) :
    InvL (stepEvent s e) := by
  cases e with
  | tick ts pullint acttimeout lockcheckint pulls locks =>
    exact invL_checkact ts pullint acttimeout lockcheckint pulls locks s h
  | closeWrite ts b => exact invL_processCloseWrite ts b s h
  | modify ts b hasData =>
    show InvL (if b = fetchDir ∧ findwin b s = none then
        modifyPull ts b hasData (addwin ts b none s)
      else modifyPull ts b hasData s)
    split
    · rename_i hcond
      exact invL_modifyPull ts b hasData _ (invL_addwin ts b none s h hcond.2)
    · exact invL_modifyPull ts b hasData s h
  | create ts b lockfn =>
    show InvL (if (findwin b s).isSome = true then s else addwin ts b lockfn s)
    split
    · exact h
    · rename_i hcond
      refine invL_addwin ts b lockfn s h ?_
      cases hfind : findwin b s with
      | none => rfl
      | some w => exact absurd (by rw [hfind]; rfl) hcond

theorem invL_runEvents (evs : List LEvent) :
    ∀ s : LScreen, InvL s → InvL (runEvents s evs) := by
  induction evs with
  | nil => intro s h; exact h
  | cons e es ih =>
    intro s h
    exact ih _ (invL_stepEvent s e h)

/-- Claim C4: over every interleaving of events — timer ticks whose lock
re-checks increment expectclose, close-write notifications which decrement
it only when it is positive (and otherwise remove the window), window
creations, pulls — every window's expectclose stays nonnegative. -/
theorem expectclose_nonneg (evs : List LEvent) (w : LWin)
    (hw : w ∈ (runEvents initLScreen evs).windows) : 0 ≤ w.expectclose :=
  (invL_runEvents evs initLScreen
    ⟨fun w2 hw2 => absurd hw2 (List.not_mem_nil w2), List.nodup_nil⟩).1 w hw

def exDir : String := "app-misc/foo-1.0"

def exLock : String := "app-misc/.foo-1.0.portage_lockfile"

def exWin : LWin := ⟨exDir, some exLock, 0, 0, 0, 0⟩

/-- Claim C4 witness: after a creation event followed by a lock-free tick
and a close-write, the surviving window data keeps expectclose nonnegative
at the concrete window produced by a single create event. -/
theorem expectclose_nonneg_witness : 0 ≤ exWin.expectclose :=
  expectclose_nonneg (LEvent.create 0 exDir (some exLock) :: []) exWin (by decide)

/-! ### A lock-free poll removes the window (claim C5) -/

theorem findwin_singleton (w : LWin) (inact : List String) :
    findwin w.basedir ⟨[w], inact⟩ = some w := by
  simp [findwin]

theorem pullPhase_no_data (ts pullint : Int) (pulls : String → Bool) (w : LWin)
    (inact : List String)
    (hpull : pullint = 0 ∨ ts - w.pullts < pullint ∨ pulls w.basedir = false) :
    ∃ w1 : LWin, pullPhase ts pullint pulls w.basedir w ⟨[w], inact⟩ = ⟨[w1], inact⟩
      ∧ w1.basedir = w.basedir ∧ w1.lockfn = w.lockfn ∧ w1.activity = w.activity
      ∧ w1.lockcheck = w.lockcheck ∧ w1.expectclose = w.expectclose := by
  rcases hpull with h0 | hlt | hfalse
  · refine ⟨w, ?_, rfl, rfl, rfl, rfl, rfl⟩
    rw [pullPhase, if_neg]
    rintro ⟨h1, _⟩
    exact h1 h0
  · refine ⟨w, ?_, rfl, rfl, rfl, rfl, rfl⟩
    rw [pullPhase, if_neg]
    rintro ⟨_, h2⟩
    omega
  · by_cases hdue : pullint ≠ 0 ∧ ts - w.pullts ≥ pullint
    · refine ⟨{ w with pullts := ts }, ?_, rfl, rfl, rfl, rfl, rfl⟩
      rw [pullPhase, if_pos hdue, hfalse]
      simp [stampPullts]
    · refine ⟨w, ?_, rfl, rfl, rfl, rfl, rfl⟩
      rw [pullPhase, if_neg hdue]

theorem inactPhase_skip (ts acttimeout : Int) (b : String) (w1 : LWin)
    (inact : List String) (rd : Bool)
    (hdue1 : acttimeout = 0 ∨ inact.contains b = true) :
    inactPhase ts acttimeout b w1 ⟨[w1], inact⟩ rd = (⟨[w1], inact⟩, rd) := by
  rcases hdue1 with h0 | hcont
  · rw [inactPhase, if_neg]
    rintro ⟨h1, _⟩
    exact h1 h0
  · rw [inactPhase, if_neg]
    rintro ⟨_, h2, _⟩
    exact h2 hcont

theorem lockPhase_free_removes (ts acttimeout lockcheckint : Int)
    (locks : String → LockStatus) (b : String) (w1 : LWin) (s : LScreen)
    (winrem : List String) (rd : Bool) (lf : String)
    (hlf : w1.lockfn = some lf)
    (hguard1 : acttimeout = 0 ∨ s.inactive.contains b = true)
    (hguard2 : ts - w1.lockcheck ≥ lockcheckint)
    (hcl : check_lock (locks lf) = false) :
    lockPhase ts acttimeout lockcheckint locks b w1 s winrem rd
      = (stampExpect b s, winrem ++ [b], rd) := by
  simp only [lockPhase, hlf]
  rw [if_pos ⟨hguard1, hguard2⟩, if_pos]
  rw [hcl]
  simp

/-- Claim C5: for a window with a lock path that is due for a lock check
(inactive, or inactivity detection disabled) whose forced pull delivers
nothing this tick, when the non-blocking poll finds the lock free or the
lock file absent while expectedCloseCount is 0, the tick (a) increments
expectclose exactly once — the per-window loop leaves the window recorded in
winrem with expectclose 1 — and (b) the checkact pass then removes the
window from the window list. -/
theorem lock_free_poll_removes (ts pullint acttimeout lockcheckint : Int)
    (pulls : String → Bool) (locks : String → LockStatus) (w : LWin)
    (inact : List String) (lf : String)
    (hlock : w.lockfn = some lf)
    (hpull : pullint = 0 ∨ ts - w.pullts < pullint ∨ pulls w.basedir = false)
    (hdue1 : acttimeout = 0 ∨ inact.contains w.basedir = true)
    (hdue2 : ts - w.lockcheck ≥ lockcheckint)
    (hfree : locks lf ≠ LockStatus.held)
    (hexp : w.expectclose = 0) :
    ((checkactCore ts pullint acttimeout lockcheckint pulls locks ⟨[w], inact⟩).2.1
       = [w.basedir])
  ∧ (∃ w2 : LWin,
      (checkactCore ts pullint acttimeout lockcheckint pulls locks ⟨[w], inact⟩).1.windows
        = [w2] ∧ w2.basedir = w.basedir ∧ w2.expectclose = 1)
  ∧ (checkact ts pullint acttimeout lockcheckint pulls locks ⟨[w], inact⟩).windows
       = [] := by
  obtain ⟨w1, hs1, hbd1, hlf1, hact1, hlc1, hexp1⟩ :=
    pullPhase_no_data ts pullint pulls w inact hpull
  have hfind1 : findwin w.basedir ⟨[w1], inact⟩ = some w1 := by
    simp [findwin, List.find?, hbd1]
  have hcl : check_lock (locks lf) = false := by
    cases hstat : locks lf with
    | absent => rfl
    | free => rfl
    | held => exact absurd hstat hfree
  have hw2bd : ({ w1 with expectclose := w1.expectclose + 1 } : LWin).basedir
      = w.basedir := hbd1
  have hw1lf : w1.lockfn = some lf := by rw [hlf1, hlock]
  have hcore : checkactCore ts pullint acttimeout lockcheckint pulls locks ⟨[w], inact⟩
      = (⟨[{ w1 with expectclose := w1.expectclose + 1 }], inact⟩, [w.basedir], false) := by
    show checkactStep ts pullint acttimeout lockcheckint pulls locks
      (⟨[w], inact⟩, [], false) w.basedir = _
    simp only [checkactStep, findwin_singleton]
    simp only [hs1, hfind1, Option.getD_some,
      inactPhase_skip ts acttimeout w.basedir w1 inact false hdue1]
    rw [lockPhase_free_removes ts acttimeout lockcheckint locks w.basedir w1
      ⟨[w1], inact⟩ [] false lf hw1lf hdue1 (by rw [hlc1]; exact hdue2) hcl]
    simp [stampExpect, hbd1]
  refine ⟨by rw [hcore], ⟨{ w1 with expectclose := w1.expectclose + 1 }, by rw [hcore],
    hw2bd, by dsimp only; omega⟩, ?_⟩
  rw [checkact, hcore]
  simp only [Bool.false_eq_true, if_false]
  rw [checkactRemove]
  simp only [List.foldl_cons, List.foldl_nil]
  rw [delwin, redrawLife]
  simp [hbd1]

def c5Win : LWin := ⟨exDir, some exLock, 0, 0, 0, 0⟩

/-- Claim C5 witness: a concrete inactive-exempt (acttimeout 0) window whose
lock poll finds the lock free at time 100. -/
theorem lock_free_poll_removes_witness :
    ((checkactCore 100 0 0 15 (fun _ => false) (fun _ => LockStatus.free)
        ⟨[c5Win], []⟩).2.1 = [c5Win.basedir])
  ∧ (∃ w2 : LWin,
      (checkactCore 100 0 0 15 (fun _ => false) (fun _ => LockStatus.free)
        ⟨[c5Win], []⟩).1.windows = [w2] ∧ w2.basedir = c5Win.basedir
        ∧ w2.expectclose = 1)
  ∧ (checkact 100 0 0 15 (fun _ => false) (fun _ => LockStatus.free)
      ⟨[c5Win], []⟩).windows = [] :=
  lock_free_poll_removes 100 0 0 15 (fun _ => false) (fun _ => LockStatus.free)
    c5Win [] exLock rfl (Or.inl rfl) (Or.inl rfl) (by decide)
    (fun h => LockStatus.noConfusion h) rfl

/-! ### The inactivity transition (claim C6) -/

/-- An event whose tick (if it is one) runs with inactivity detection
disabled (the --inactivity-timeout 0 configuration). -/
def tickTimeout0 : LEvent → Prop
  | .tick _ _ acttimeout _ _ _ => acttimeout = 0
  | _ => True

theorem emp_delwin (ts : Int) (b : String) (s : LScreen) (h : s.inactive = []) :
    (delwin ts b s).inactive = [] := by
  show (s.inactive.erase b) = []
  rw [h]
  rfl

theorem emp_appendLife (now : Int) (b : String) (s : LScreen) (h : s.inactive = []) :
    (appendLife now b s).inactive = [] := by
  rw [appendLife, if_neg]
  · exact h
  · rw [h]
    simp

theorem emp_pullPhase (ts pullint : Int) (pulls : String → Bool) (b : String)
    (w : LWin) (s : LScreen) (h : s.inactive = []) :
    (pullPhase ts pullint pulls b w s).inactive = [] := by
  rw [pullPhase]
  split
  · split
    · exact emp_appendLife ts b _ h
    · exact h
  · exact h

theorem emp_inactPhase0 (ts acttimeout : Int) (b : String) (w : LWin) (s : LScreen)
    (rd : Bool) (h0 : acttimeout = 0) (h : s.inactive = []) :
    (inactPhase ts acttimeout b w s rd).1.inactive = [] := by
  rw [inactPhase, if_neg]
  · exact h
  · rintro ⟨h1, _⟩
    exact h1 h0

theorem emp_lockPhase (ts acttimeout lockcheckint : Int) (locks : String → LockStatus)
    (b : String) (w : LWin) (s : LScreen) (winrem : List String) (rd : Bool)
    (h : s.inactive = []) :
    (lockPhase ts acttimeout lockcheckint locks b w s winrem rd).1.inactive = [] := by
  rw [lockPhase]
  split
  · exact h
  · split
    · split
      · exact h
      · exact h
    · exact h

theorem emp_checkactStep (ts pullint acttimeout lockcheckint : Int)
    (pulls : String → Bool) (locks : String → LockStatus)
    (acc : LScreen × List String × Bool) (b : String) (h0 : acttimeout = 0)
    (h : acc.1.inactive = []) :
    (checkactStep ts pullint acttimeout lockcheckint pulls locks acc b).1.inactive = [] := by
  unfold checkactStep
  split
  · exact h
  · exact emp_lockPhase _ _ _ _ _ _ _ _ _
      (emp_inactPhase0 _ _ _ _ _ _ h0 (emp_pullPhase _ _ _ _ _ _ h))

theorem emp_foldl_checkactStep (ts pullint acttimeout lockcheckint : Int)
    (pulls : String → Bool) (locks : String → LockStatus) (h0 : acttimeout = 0) :
    ∀ (bs : List String) (acc : LScreen × List String × Bool), acc.1.inactive = [] →
    ((bs.foldl (checkactStep ts pullint acttimeout lockcheckint pulls locks) acc)).1.inactive
      = [] := by
  intro bs
  induction bs with
  | nil => intro acc h; exact h
  | cons b bs ih =>
    intro acc h
    exact ih _ (emp_checkactStep _ _ _ _ _ _ acc b h0 h)

theorem emp_checkactRemove (ts : Int) :
    ∀ (l : List String) (s : LScreen), s.inactive = [] →
    (l.foldl (fun s b => delwin ts b s) s).inactive = [] := by
  intro l
  induction l with
  | nil => intro s h; exact h
  | cons b bs ih =>
    intro s h
    exact ih _ (emp_delwin ts b s h)

theorem emp_checkact (ts pullint acttimeout lockcheckint : Int)
    (pulls : String → Bool) (locks : String → LockStatus) (s : LScreen)
    (h0 : acttimeout = 0) (h : s.inactive = []) :
    (checkact ts pullint acttimeout lockcheckint pulls locks s).inactive = [] := by
  unfold checkact
  have h1 := emp_foldl_checkactStep ts pullint acttimeout lockcheckint pulls locks h0
    (s.windows.map (fun w => w.basedir)) (s, [], false) h
  have h2 := emp_checkactRemove ts
    (checkactCore ts pullint acttimeout lockcheckint pulls locks s).2.1
    (checkactCore ts pullint acttimeout lockcheckint pulls locks s).1 h1
  split
  · exact h2
  · exact h2

theorem emp_modifyPull (ts : Int) (b : String) (hasData : Bool) (s : LScreen)
    (h : s.inactive = []) : (modifyPull ts b hasData s).inactive = [] := by
  unfold modifyPull
  split
  · exact h
  · split
    · exact emp_appendLife ts b _ h
    · exact h

theorem emp_stepEvent (s : LScreen) (e : LEvent) (h0 : tickTimeout0 e)
    (h : s.inactive = []) : (stepEvent s e).inactive = [] := by
  cases e with
  | tick ts pullint acttimeout lockcheckint pulls locks =>
    exact emp_checkact ts pullint acttimeout lockcheckint pulls locks s h0 h
  | closeWrite ts b =>
    show (processCloseWrite ts b s).inactive = []
    unfold processCloseWrite
    split
    · exact h
    · split
      · exact h
      · exact emp_delwin ts b s h
  | modify ts b hasData =>
    show (if b = fetchDir ∧ findwin b s = none then
        modifyPull ts b hasData (addwin ts b none s)
      else modifyPull ts b hasData s).inactive = []
    split
    · exact emp_modifyPull ts b hasData _ h
    · exact emp_modifyPull ts b hasData s h
  | create ts b lockfn =>
    show (if (findwin b s).isSome = true then s else addwin ts b lockfn s).inactive = []
    split
    · exact h
    · exact h

theorem emp_runEvents (evs : List LEvent) :
    ∀ s : LScreen, (∀ e ∈ evs, tickTimeout0 e) → s.inactive = [] →
    (runEvents s evs).inactive = [] := by
  induction evs with
  | nil => intro s _ h; exact h
  | cons e es ih =>
    intro s h0 h
    exact ih _ (fun e2 he2 => h0 e2 (List.mem_cons_of_mem _ he2))
      (emp_stepEvent s e (h0 e (List.mem_cons_self _ _)) h)

theorem pullPhase_single (ts pullint : Int) (pulls : String → Bool) (w : LWin) :
    ∃ w1 : LWin, pullPhase ts pullint pulls w.basedir w ⟨[w], []⟩ = ⟨[w1], []⟩
      ∧ w1.basedir = w.basedir ∧ w1.lockfn = w.lockfn ∧ w1.lockcheck = w.lockcheck
      ∧ w1.activity =
          (if pullint ≠ 0 ∧ ts - w.pullts ≥ pullint ∧ pulls w.basedir = true
           then ts else w.activity) := by
  by_cases hdel : pullint ≠ 0 ∧ ts - w.pullts ≥ pullint ∧ pulls w.basedir = true
  · refine ⟨{ w with pullts := ts, activity := ts }, ?_, rfl, rfl, rfl, ?_⟩
    · rw [pullPhase, if_pos ⟨hdel.1, hdel.2.1⟩, hdel.2.2, if_pos rfl]
      have hsp : stampPullts ts w.basedir ⟨[w], []⟩
          = ⟨[{ w with pullts := ts }], []⟩ := by
        simp [stampPullts]
      rw [hsp, appendLife, if_neg (by simp)]
      simp [stampActivity]
    · rw [if_pos hdel]
  · have h3 : pullint = 0 ∨ ts - w.pullts < pullint ∨ pulls w.basedir = false := by
      by_cases h1 : pullint = 0
      · exact Or.inl h1
      by_cases h2 : ts - w.pullts ≥ pullint
      · refine Or.inr (Or.inr ?_)
        cases hp : pulls w.basedir with
        | false => rfl
        | true => exact absurd ⟨h1, h2, hp⟩ hdel
      · exact Or.inr (Or.inl (by omega))
    obtain ⟨w1, hs1, hb, hl, hact, hlc, _⟩ := pullPhase_no_data ts pullint pulls w [] h3
    exact ⟨w1, hs1, hb, hl, hlc, by rw [if_neg hdel]; exact hact⟩

theorem inact_transition_aux (ts pullint acttimeout lockcheckint : Int)
    (pulls : String → Bool) (locks : String → LockStatus) (w : LWin)
    (ha : acttimeout ≠ 0)
    (hnorem : ∀ lf, w.lockfn = some lf →
      locks lf = LockStatus.held ∨ ts - w.lockcheck < lockcheckint) :
    ((checkact ts pullint acttimeout lockcheckint pulls locks ⟨[w], []⟩).inactive
       = if acttimeout ≤ ts -
           (if pullint ≠ 0 ∧ ts - w.pullts ≥ pullint ∧ pulls w.basedir = true
            then ts else w.activity)
         then [w.basedir] else [])
  ∧ ((checkactCore ts pullint acttimeout lockcheckint pulls locks ⟨[w], []⟩).2.2
       = decide (acttimeout ≤ ts -
           (if pullint ≠ 0 ∧ ts - w.pullts ≥ pullint ∧ pulls w.basedir = true
            then ts else w.activity))) := by
  obtain ⟨w1, hs1, hbd1, hlf1, hlc1, hact1⟩ := pullPhase_single ts pullint pulls w
  have hfind1 : findwin w.basedir ⟨[w1], []⟩ = some w1 := by
    simp [findwin, List.find?, hbd1]
  by_cases hth : acttimeout ≤ ts -
      (if pullint ≠ 0 ∧ ts - w.pullts ≥ pullint ∧ pulls w.basedir = true
       then ts else w.activity)
  · have hphase2 : inactPhase ts acttimeout w.basedir w1 ⟨[w1], []⟩ false
        = (⟨[w1], [w.basedir]⟩, true) := by
      rw [inactPhase, if_pos ⟨ha, by simp, by rw [hact1]; omega⟩]
      simp
    have hlockp : ∀ (winrem : List String) (rd : Bool),
        ((lockPhase ts acttimeout lockcheckint locks w.basedir w1
            ⟨[w1], [w.basedir]⟩ winrem rd).1.inactive = [w.basedir])
        ∧ ((lockPhase ts acttimeout lockcheckint locks w.basedir w1
            ⟨[w1], [w.basedir]⟩ winrem rd).2.1 = winrem)
        ∧ ((lockPhase ts acttimeout lockcheckint locks w.basedir w1
            ⟨[w1], [w.basedir]⟩ winrem rd).2.2 = rd) := by
      intro winrem rd
      cases hwl : w1.lockfn with
      | none => simp [lockPhase, hwl]
      | some lf =>
        have hn := hnorem lf (by rw [← hlf1]; exact hwl)
        simp only [lockPhase, hwl]
        rcases hn with hheld | hlt
        · by_cases hdue : (acttimeout = 0
              ∨ (⟨[w1], [w.basedir]⟩ : LScreen).inactive.contains w.basedir = true)
              ∧ ts - w1.lockcheck ≥ lockcheckint
          · rw [if_pos hdue, if_neg (by rw [hheld]; simp [check_lock])]
            exact ⟨rfl, rfl, rfl⟩
          · rw [if_neg hdue]
            exact ⟨rfl, rfl, rfl⟩
        · rw [if_neg]
          · exact ⟨rfl, rfl, rfl⟩
          · rintro ⟨_, h2⟩
            rw [hlc1] at h2
            omega
    have hstep : ∀ x, x = checkactStep ts pullint acttimeout lockcheckint pulls locks
        (⟨[w], []⟩, [], false) w.basedir →
        x.1.inactive = [w.basedir] ∧ x.2.1 = [] ∧ x.2.2 = true := by
      intro x hx
      rw [hx]
      simp only [checkactStep, findwin_singleton]
      simp only [hs1, hfind1, Option.getD_some, hphase2]
      exact ⟨(hlockp [] true).1, (hlockp [] true).2.1, (hlockp [] true).2.2⟩
    have hcore := hstep (checkactCore ts pullint acttimeout lockcheckint pulls locks
      ⟨[w], []⟩) rfl
    rw [if_pos hth]
    refine ⟨?_, by rw [hcore.2.2]; simp [hth]⟩
    rw [checkact, if_pos hcore.2.2]
    rw [checkactRemove, hcore.2.1]
    simp only [List.foldl_nil]
    show (checkactCore ts pullint acttimeout lockcheckint pulls locks
      ⟨[w], []⟩).1.inactive = [w.basedir]
    exact hcore.1
  · have hphase2 : inactPhase ts acttimeout w.basedir w1 ⟨[w1], []⟩ false
        = (⟨[w1], []⟩, false) := by
      rw [inactPhase, if_neg]
      rintro ⟨_, _, h3⟩
      rw [hact1] at h3
      omega
    have hlockp : ∀ (winrem : List String) (rd : Bool),
        lockPhase ts acttimeout lockcheckint locks w.basedir w1
            ⟨[w1], []⟩ winrem rd = (⟨[w1], []⟩, winrem, rd) := by
      intro winrem rd
      cases hwl : w1.lockfn with
      | none => simp [lockPhase, hwl]
      | some lf =>
        simp only [lockPhase, hwl]
        rw [if_neg]
        rintro ⟨h1, _⟩
        rcases h1 with h1 | h1
        · exact ha h1
        · simp at h1
    have hstep : ∀ x, x = checkactStep ts pullint acttimeout lockcheckint pulls locks
        (⟨[w], []⟩, [], false) w.basedir →
        x = (⟨[w1], []⟩, [], false) := by
      intro x hx
      rw [hx]
      simp only [checkactStep, findwin_singleton]
      simp only [hs1, hfind1, Option.getD_some, hphase2]
      exact hlockp [] false
    have hcore := hstep (checkactCore ts pullint acttimeout lockcheckint pulls locks
      ⟨[w], []⟩) rfl
    rw [if_neg hth]
    constructor
    · rw [checkact, hcore]
      simp [checkactRemove]
    · rw [hcore]
      simp [hth]

/-- Claim C6: (1) with inactivityTimeout configured as 0, no window ever
enters the inactive list, over any event sequence from startup; (2) with a
positive inactivityTimeout, a tick moves a (sole) active window to the
inactive list exactly when the time since the last data delivery — the tick's
own pull included: a pull that delivers data this tick refreshes the
activity stamp to the tick time — has reached the timeout, and the
transition is precisely what raises the redraw (layout recompute) flag of
that tick. -/
theorem inactivity_transition :
    (∀ evs : List LEvent, (∀ e ∈ evs, tickTimeout0 e) →
      (runEvents initLScreen evs).inactive = [])
  ∧ (∀ (ts pullint acttimeout lockcheckint : Int) (pulls : String → Bool)
      (locks : String → LockStatus) (w : LWin),
      acttimeout ≠ 0 →
      (∀ lf, w.lockfn = some lf →
        locks lf = LockStatus.held ∨ ts - w.lockcheck < lockcheckint) →
      ((checkact ts pullint acttimeout lockcheckint pulls locks ⟨[w], []⟩).inactive
         = if acttimeout ≤ ts -
             (if pullint ≠ 0 ∧ ts - w.pullts ≥ pullint ∧ pulls w.basedir = true
              then ts else w.activity)
           then [w.basedir] else [])
      ∧ ((checkactCore ts pullint acttimeout lockcheckint pulls locks
            ⟨[w], []⟩).2.2
         = decide (acttimeout ≤ ts -
             (if pullint ≠ 0 ∧ ts - w.pullts ≥ pullint ∧ pulls w.basedir = true
              then ts else w.activity)))) :=
  ⟨fun evs h => emp_runEvents evs initLScreen h rfl,
   fun ts pullint acttimeout lockcheckint pulls locks w ha hnorem =>
     inact_transition_aux ts pullint acttimeout lockcheckint pulls locks w ha hnorem⟩

/-- A window whose last activity was at time 0 and whose lock check is not
yet due at time 100 (lockcheck stamped at 95, interval 15). -/
def c6Win : LWin := ⟨exDir, some exLock, 0, 95, 0, 0⟩

/-- Claim C6 witness: at time 100 with a 30-second timeout and no data
pulled, the sole window goes inactive and the redraw flag is raised. -/
theorem inactivity_transition_witness :
    ((checkact 100 0 30 15 (fun _ => false) (fun _ => LockStatus.free)
        ⟨[c6Win], []⟩).inactive = [c6Win.basedir])
  ∧ ((checkactCore 100 0 30 15 (fun _ => false) (fun _ => LockStatus.free)
        ⟨[c6Win], []⟩).2.2 = true) := by
  have h := inactivity_transition.2 100 0 30 15 (fun _ => false)
    (fun _ => LockStatus.free) c6Win (by decide)
    (fun lf _ => Or.inr (by decide))
  simpa [c6Win] using h

/-- Claim C10 witness: the deferred-newline theorem applied to the concrete
scenario-B run (both general conjuncts instantiated on its two chunks). -/
theorem deferred_newline_witness :
    ((append 640 defOpts sbWin sbChunk false).1.newline = true)
  ∧ ((append 640 defOpts (append 640 defOpts sbWin sbChunk false).1
        ('x' :: []) false).2.head?
      = some (DrawOp.text ('\n' :: []) (⟨10, 80, 0, 9, defaultAttr⟩ : WinState).attr))
  ∧ ((append 640 defOpts sbWin sbChunk false).2
      = DrawOp.text ('a' :: 'b' :: 'c' :: []) defaultAttr
        :: DrawOp.text ('r' :: 'e' :: 'd' :: []) ⟨0, 1, -1⟩
        :: DrawOp.text ('d' :: 'e' :: 'f' :: []) defaultAttr :: [])
  ∧ ((append 640 defOpts sbWin sbChunk false).1.newline = true)
  ∧ ((append 640 defOpts (append 640 defOpts sbWin sbChunk false).1
        ('x' :: []) false).2
      = DrawOp.text ('\n' :: []) defaultAttr
        :: DrawOp.text ('x' :: []) defaultAttr :: []) :=
  deferred_newline 640 defOpts sbWin sbWS sbChunk rfl (by decide)
    (append 640 defOpts sbWin sbChunk false).1 ⟨10, 80, 0, 9, defaultAttr⟩
    ('x' :: []) (by decide) (by decide)
